import Mathlib

/-!
Shallow embedding of the Forth-style calculator in `Forth_resolution.py`.

Modelling conventions:
* Python text is modelled as `List Char` (all separators used by the source
  are single characters, so a character-level model is exact for the
  operations the source performs: `lower`, `split(";")`, `split(":")`,
  `split(" ", 1)`, `strip`, `split()`, `isdigit`, `startswith(":")`).
  ASCII inputs are assumed when modelling `lower`/`isdigit`.
* The operand stack (`Stack.items`, bottom-to-top in Python) is modelled
  top-at-head; `evaluate` returns `stack.reverse`, i.e. Python's `items`.
* Python exceptions are modelled with `Except`; since a raised exception
  leaves the mutated `Calculator` observable to the caller, errors carry
  the state at the moment of the raise.
* The user-defined-word closures (`lambda: self.evaluate(definition)`) can
  recurse; the evaluator takes a fuel parameter, and exhausting fuel is the
  distinguished `Err.outOfFuel` (modelling nontermination, which the source
  does not guard against).
-/

namespace Forth

abbrev Str := List Char

/-- Python `str.lower()` (ASCII). -/
def lowerStr (s : Str) : Str := s.map Char.toLower

/-- Python `s.split(sep)` for a one-character separator: split at every
occurrence, keeping empty pieces; `"".split(sep) = [""]`. -/
def splitOnChar (sep : Char) : Str → List Str
  | [] => [[]]
  | c :: rest =>
    let r := splitOnChar sep rest
    if c = sep then [] :: r
    else
      match r with
      | [] => [[c]]
      | h :: t => (c :: h) :: t

/-- Split at every character satisfying `p`, keeping empty pieces. -/
def splitOnPred (p : Char → Bool) : Str → List Str
  | [] => [[]]
  | c :: rest =>
    let r := splitOnPred p rest
    if p c then [] :: r
    else
      match r with
      | [] => [[c]]
      | h :: t => (c :: h) :: t

/-- Python `str.split()` with no argument: split on whitespace runs and
drop the empty pieces. -/
def wsTokens (s : Str) : List Str :=
  (splitOnPred Char.isWhitespace s).filter (fun t => !t.isEmpty)

def dropLeadingWs : Str → Str
  | [] => []
  | c :: rest => if c.isWhitespace then dropLeadingWs rest else c :: rest

/-- Python `str.strip()`. -/
def pyStrip (s : Str) : Str :=
  (dropLeadingWs (dropLeadingWs s).reverse).reverse

/-- Python `s.startswith(":")`. -/
def startsWithColon : Str → Bool
  | ':' :: _ => true
  | _ => false

/-- Python `str.isdigit()` (ASCII digits). -/
def isDigits (s : Str) : Bool := !s.isEmpty && s.all Char.isDigit

/-- Python `int(s)` for an all-digit string. -/
def parseDigits (s : Str) : Nat :=
  s.foldl (fun n c => 10 * n + (c.toNat - 48)) 0

/-- Join pieces back with a single space: used to model the tail of
Python `s.split(" ", 1)`. -/
def joinSpace : List Str → Str
  | [] => []
  | [x] => x
  | x :: xs => x ++ ' ' :: joinSpace xs

/-- Python `s.split(" ", 1)` together with the 2-variable unpacking in
`define_words`: `none` models the `ValueError` when there is no space. -/
def splitFirstSpace (s : Str) : Option (Str × Str) :=
  match splitOnChar ' ' s with
  | [] => none
  | [_] => none
  | h :: t => some (h, joinSpace t)

/-- The membership test `word in self.operations` (keys `+ - * /`). -/
def isArith (s : Str) : Bool :=
  s == ['+'] || s == ['-'] || s == ['*'] || s == ['/']

/-- The four built-in entries of `self.other_methods`. -/
inductive StackOp
  | drop
  | swap
  | dup
  | over
deriving DecidableEq

/-- A value of `self.other_methods`: either one of the four bound methods
installed by `__init__`, or a user-defined closure storing its body text. -/
inductive WordEntry
  | builtin : StackOp → WordEntry
  | user : Str → WordEntry
deriving DecidableEq

/-- The mutable state of a `Calculator`: its `Stack` (top at head) and its
`other_methods` dictionary. The dictionary is modelled as an association
list where insertion conses in front and lookup takes the first match, which
is observably Python's overwrite-on-assignment dict for lookups. -/
structure Calc where
  stack : List Int
  words : List (Str × WordEntry)
deriving DecidableEq

/-- Dict lookup: first matching key wins. -/
def lookupWord : List (Str × WordEntry) → Str → Option WordEntry
  | [], _ => none
  | (k, v) :: rest, w => if k = w then some v else lookupWord rest w

/-- The errors the source can raise, plus fuel exhaustion. -/
inductive Err
  | stackUnderflow
  | divisionByZero
  | undefinedOperation
  | valueErrorUnpack
  | outOfFuel
deriving DecidableEq

/-- `self.other_methods` as installed by `Calculator.__init__`. -/
def initWords : List (Str × WordEntry) :=
  [(['d', 'r', 'o', 'p'], .builtin .drop),
   (['s', 'w', 'a', 'p'], .builtin .swap),
   (['d', 'u', 'p'], .builtin .dup),
   (['o', 'v', 'e', 'r'], .builtin .over)]

/-- A freshly constructed `Calculator`. -/
def initCalc : Calc := { stack := [], words := initWords }

/-- `Stack.pop`: raises `StackUnderflowError` on an empty stack. -/
def stackPop (s : List Int) : Except Err (Int × List Int) :=
  match s with
  | [] => .error .stackUnderflow
  | a :: rest => .ok (a, rest)

/-- The bodies of `Calculator.add/subtract/multiply/divide`; Python `//`
on integers is flooring division, `Int.fdiv`. Only called with an
arithmetic key. -/
def arithFn (op : Str) (a b : Int) : Int :=
  if op = ['+'] then a + b
  else if op = ['-'] then a - b
  else if op = ['*'] then a * b
  else Int.fdiv a b

/-- `Calculator.perform_operation`: length check first (raise leaves the
stack untouched), then two pops, then the zero-divisor check (raise happens
after both pops), then compute and push. -/
def performOperation (op : Str) (c : Calc) : Except (Err × Calc) Calc :=
  match c.stack with
  | op2 :: op1 :: rest =>
    if op = ['/'] ∧ op2 = 0 then .error (.divisionByZero, { c with stack := rest })
    else .ok { c with stack := arithFn op op1 op2 :: rest }
  | _ => .error (.stackUnderflow, c)

/-- `Calculator.drop/swap/dup/over`. `drop` delegates the underflow check
to `Stack.pop`; the other three check the depth themselves before popping
or peeking. -/
def stackOpRun : StackOp → Calc → Except (Err × Calc) Calc
  | .drop, c =>
    match stackPop c.stack with
    | .error e => .error (e, c)
    | .ok (_, rest) => .ok { c with stack := rest }
  | .swap, c =>
    match c.stack with
    | a :: b :: rest => .ok { c with stack := b :: a :: rest }
    | _ => .error (.stackUnderflow, c)
  | .dup, c =>
    match c.stack with
    | [] => .error (.stackUnderflow, c)
    | a :: rest => .ok { c with stack := a :: a :: rest }
  | .over, c =>
    match c.stack with
    | a :: b :: rest => .ok { c with stack := b :: a :: b :: rest }
    | _ => .error (.stackUnderflow, c)

/-- One `: name body` parse inside `define_words`: `item.split(":")[1]`,
`.strip()`, then `word_name, definition = word_definition.split(" ", 1)`
(whose failed unpacking is a `ValueError`). -/
def parseDef (item : Str) : Except Err (Str × Str) :=
  let wd := pyStrip (((splitOnChar ':' item).drop 1).headD [])
  match splitFirstSpace wd with
  | none => .error .valueErrorUnpack
  | some (name, body) => .ok (name, body)

/-- `Calculator.define_words`: scans EVERY segment (the last included);
a segment whose stripped text starts with `:` installs a user word into
`other_methods`, any other segment is skipped. -/
def defineWords : List Str → Calc → Except (Err × Calc) Calc
  | [], c => .ok c
  | seg :: rest, c =>
    let item := pyStrip seg
    if startsWithColon item then
      match parseDef item with
      | .error e => .error (e, c)
      | .ok (name, body) =>
        defineWords rest { c with words := (name, .user body) :: c.words }
    else defineWords rest c

mutual

/-- `Calculator.evaluate` up to its return value: lower the input, split on
`;` (the `":" in input_data` test in the source takes the same action on
both branches), run `define_words` on all segments, then run
`select_operations` on the last segment's whitespace tokens. -/
def runString : Nat → Str → Calc → Except (Err × Calc) Calc
  | 0, _, c => .error (.outOfFuel, c)
  | fuel + 1, input, c =>
    let segments := splitOnChar ';' (lowerStr input)
    match defineWords segments c with
    | .error e => .error e
    | .ok c1 => runToks fuel (wsTokens (segments.getLastD [])) c1

/-- The loop of `Calculator.select_operations`: digits are pushed,
arithmetic keys go to `perform_operation`, then `other_methods` is
consulted (built-in stack words and user words), and anything else raises
`ValueError("Undefined operation")`. A user word re-enters `evaluate` on
its stored body with the same `Calculator` state. -/
def runToks : Nat → List Str → Calc → Except (Err × Calc) Calc
  | _, [], c => .ok c
  | 0, _ :: _, c => .error (.outOfFuel, c)
  | fuel + 1, w :: ws, c =>
    if isDigits w then
      runToks fuel ws { c with stack := (parseDigits w : Int) :: c.stack }
    else if isArith w then
      match performOperation w c with
      | .error e => .error e
      | .ok c1 => runToks fuel ws c1
    else
      match lookupWord c.words (lowerStr w) with
      | some (.builtin op) =>
        match stackOpRun op c with
        | .error e => .error e
        | .ok c1 => runToks fuel ws c1
      | some (.user body) =>
        match runString fuel body c with
        | .error e => .error e
        | .ok c1 => runToks fuel ws c1
      | none => .error (.undefinedOperation, c)

end

/-- `Calculator.evaluate` including its return value `self.stack.items`
(bottom-to-top, i.e. the reverse of our top-at-head stack). -/
def evaluate (fuel : Nat) (input : Str) (c : Calc) :
    Except (Err × Calc) (List Int) :=
  match runString fuel input c with
  | .error e => .error e
  | .ok c1 => .ok c1.stack.reverse

/-! ### Helper lemmas about flooring division -/

/-- Flooring division is invariant under negating both arguments. -/
theorem fdiv_neg_neg (a b : Int) : Int.fdiv (-a) (-b) = Int.fdiv a b := by
  rcases a with (_ | m) | m <;> rcases b with (_ | n) | n <;>
    first
      | rfl
      | (show (0 : Int) = Int.ofNat ((m + 1) / 0); rw [Nat.div_zero]; rfl)
      | (show Int.ofNat ((m + 1) / 0) = (0 : Int); rw [Nat.div_zero]; rfl)

/-- `Int.fdiv` by a natural number is the floor of the rational quotient. -/
theorem fdiv_natCast_eq_floor (a : Int) (d : Nat) :
    Int.fdiv a d = ⌊(a : ℚ) / (d : ℚ)⌋ := by
  rw [Int.fdiv_eq_ediv a (Int.natCast_nonneg d), Rat.floor_intCast_div_natCast a d]

/-- Python `a // b` (`Int.fdiv`) is the floor of the rational quotient —
floor semantics, not truncation toward zero. -/
theorem fdiv_eq_floor (a b : Int) : Int.fdiv a b = ⌊(a : ℚ) / (b : ℚ)⌋ := by
  rcases le_or_lt 0 b with hb | hb
  · obtain ⟨d, rfl⟩ := Int.eq_ofNat_of_zero_le hb
    simpa using fdiv_natCast_eq_floor a d
  · have hnb : (0 : ℤ) ≤ -b := by omega
    obtain ⟨d, hd⟩ := Int.eq_ofNat_of_zero_le hnb
    have h1 : Int.fdiv a b = Int.fdiv (-a) (-b) := (fdiv_neg_neg a b).symm
    have h2 : Int.fdiv (-a) (-b) = ⌊((-a : ℤ) : ℚ) / ((-b : ℤ) : ℚ)⌋ := by
      rw [hd]
      simpa using fdiv_natCast_eq_floor (-a) d
    rw [h1, h2]
    congr 1
    push_cast
    exact neg_div_neg_eq (a : ℚ) (b : ℚ)

/-! ### Claim theorems -/

/-- C1: a `: name body` segment registers a user-defined word, and invoking
that word's name during the execution pass re-evaluates the captured body
text against the same calculator's live stack, not a fresh one: the step on
the word equals running the body from the very same state `c`. Concretely,
`evaluate ": double 2 * ; 5 double"` returns `[10]`. -/
theorem userWord_reevaluates_body_on_live_state :
    (∀ (fuel : Nat) (ws : List Str) (c : Calc) (w body : Str),
        isDigits w = false → isArith w = false →
        lookupWord c.words (lowerStr w) = some (.user body) →
        runToks (fuel + 1) (w :: ws) c =
          match runString fuel body c with
          | .error e => .error e
          | .ok c1 => runToks fuel ws c1) ∧
    evaluate 10 ((": double 2 * ; 5 double").toList) initCalc = .ok [10] := by
  constructor
  · intro fuel ws c w body hd ha hl
    simp [runToks, hd, ha, hl]
  · rfl

/-- Witness for C1: the word `double` with stored body `2 *`, invoked on the
state with stack `[5]`, steps to running `2 *` on that same state. -/
theorem userWord_reevaluates_body_on_live_state_app :
    runToks 4 [(("double").toList)]
        { stack := [5],
          words := (("double").toList, .user (("2 *").toList)) :: initWords } =
      match runString 3 (("2 *").toList)
          { stack := [5],
            words := (("double").toList, .user (("2 *").toList)) :: initWords } with
      | .error e => .error e
      | .ok c1 => runToks 3 [] c1 :=
  userWord_reevaluates_body_on_live_state.1 3 []
    { stack := [5],
      words := (("double").toList, .user (("2 *").toList)) :: initWords }
    (("double").toList) (("2 *").toList) rfl rfl rfl

/-- C2: each binary arithmetic token applied to a stack whose top two items
are `operand1` below `operand2` pops both and pushes `f operand1 operand2`,
with `add a b = a + b`, `subtract a b = a - b`, `multiply a b = a * b`; in
particular `evaluate "2 3 -"` returns `[-1]`. -/
theorem binaryArith_pops_two_pushes_result :
    (∀ (c : Calc) (a b : Int) (rest : List Int), c.stack = b :: a :: rest →
        performOperation ['+'] c = .ok { c with stack := (a + b) :: rest } ∧
        performOperation ['-'] c = .ok { c with stack := (a - b) :: rest } ∧
        performOperation ['*'] c = .ok { c with stack := (a * b) :: rest }) ∧
    evaluate 10 (("2 3 -").toList) initCalc = .ok [-1] := by
  constructor
  · intro c a b rest h
    refine ⟨?_, ?_, ?_⟩ <;> simp [performOperation, h, arithFn]
  · rfl

/-- Witness for C2: on the stack holding `2` below `3`, the three operators
yield `5`, `-1` and `6` respectively. -/
theorem binaryArith_pops_two_pushes_result_app :
    performOperation ['+'] { stack := [3, 2], words := initWords } =
      .ok { stack := [5], words := initWords } ∧
    performOperation ['-'] { stack := [3, 2], words := initWords } =
      .ok { stack := [-1], words := initWords } ∧
    performOperation ['*'] { stack := [3, 2], words := initWords } =
      .ok { stack := [6], words := initWords } := by
  have h := binaryArith_pops_two_pushes_result.1
    { stack := [3, 2], words := initWords } 2 3 [] rfl
  exact ⟨h.1, h.2.1, h.2.2⟩

/-- C3 counterexample: after the definition `: + 5 ;`, the token `+` still
performs built-in addition (`2 3 +` leaves `[5]`, not the effect of the
body `5` on the stack `[2, 3]`), even though `define_words` did install the
binding `+ ↦ user "5"` into `other_methods`. -/
theorem operator_shadowing_counterexample :
    evaluate 10 ((": + 5 ; 2 3 +").toList) initCalc = .ok [5] ∧
    defineWords (splitOnChar ';' (lowerStr ((": + 5 ; 2 3 +").toList))) initCalc =
      .ok { stack := [], words := (['+'], .user ['5']) :: initWords } :=
  ⟨rfl, rfl⟩

/-- C3 amended: a `: name body` definition silently replaces the binding
used for stack words and user words (a user may shadow `drop`), but the
arithmetic operators `+ - * /` are dispatched from the separate
`operations` table, which is consulted before `other_methods`, so a
definition `: + body` does not change what the token `+` does: for every
arithmetic token the step goes through `perform_operation` regardless of
the word table. -/
theorem redefinition_replaces_word_but_not_operator :
    (∀ (fuel : Nat) (w : Str) (ws : List Str) (c : Calc),
        isArith w = true →
        runToks (fuel + 1) (w :: ws) c =
          match performOperation w c with
          | .error e => .error e
          | .ok c1 => runToks fuel ws c1) ∧
    evaluate 10 ((": drop 0 ; 1 2 drop").toList) initCalc = .ok [1, 2, 0] ∧
    evaluate 10 ((": + 5 ; 2 3 +").toList) initCalc = .ok [5] := by
  refine ⟨?_, rfl, rfl⟩
  intro fuel w ws c ha
  have hw : ((w = ['+'] ∨ w = ['-']) ∨ w = ['*']) ∨ w = ['/'] := by
    simpa [isArith] using ha
  have hd : isDigits w = false := by
    rcases hw with ((h | h) | h) | h <;> subst h <;> rfl
  simp [runToks, hd, ha]

/-- Witness for C3's amended theorem: the arithmetic token `+` on a fresh
calculator steps through `perform_operation` (here underflowing). -/
theorem redefinition_replaces_word_but_not_operator_app :
    runToks 1 [['+']] initCalc =
      match performOperation ['+'] initCalc with
      | .error e => .error e
      | .ok c1 => runToks 0 [] c1 :=
  redefinition_replaces_word_but_not_operator.1 0 ['+'] [] initCalc rfl

/-- C4 counterexample: `define_words` also processes the LAST segment. On
the input `": foo 5"` (a single segment, hence the last one), the word
`foo` is registered as a definition, observable in the state carried by the
`UndefinedOperation` failure the execution pass then raises on `:`. -/
theorem lastSegment_definition_counterexample :
    runString 10 ((": foo 5").toList) initCalc =
      .error (.undefinedOperation,
        { stack := [], words := ((("foo").toList), .user ['5']) :: initWords }) :=
  rfl

/-- C4 amended: the definition pass scans every semicolon-delimited
segment, the last included: it is a fold over all segments (first
conjunct), a segment whose trimmed text does not start with `:` is silently
skipped wherever it occurs (second conjunct), and the execution pass runs
exactly the tokens of the final segment (third conjunct, the shape of
`evaluate`). -/
theorem definitionPass_scans_every_segment :
    (∀ (segs : List Str) (s : Str) (c : Calc),
        defineWords (segs ++ [s]) c =
          match defineWords segs c with
          | .error e => .error e
          | .ok c1 => defineWords [s] c1) ∧
    (∀ (segs : List Str) (c : Calc),
        (∀ s ∈ segs, startsWithColon (pyStrip s) = false) →
        defineWords segs c = .ok c) ∧
    (∀ (fuel : Nat) (input : Str) (c : Calc),
        runString (fuel + 1) input c =
          match defineWords (splitOnChar ';' (lowerStr input)) c with
          | .error e => .error e
          | .ok c1 =>
            runToks fuel (wsTokens ((splitOnChar ';' (lowerStr input)).getLastD [])) c1) := by
  refine ⟨?_, ?_, ?_⟩
  · intro segs s c
    induction segs generalizing c with
    | nil => rfl
    | cons seg rest ih =>
      simp only [List.cons_append, defineWords]
      by_cases h : startsWithColon (pyStrip seg) = true
      · simp only [h, if_true]
        cases hp : parseDef (pyStrip seg) with
        | error e => rfl
        | ok nb => exact ih _
      · simp only [Bool.not_eq_true] at h
        simp only [h, Bool.false_eq_true, if_false]
        exact ih c
  · intro segs c hall
    induction segs generalizing c with
    | nil => rfl
    | cons seg rest ih =>
      have h0 : startsWithColon (pyStrip seg) = false := hall seg (by simp)
      simp only [defineWords, h0, Bool.false_eq_true, if_false]
      exact ih c fun s hs => hall s (by simp [hs])
  · intro fuel input c
    rfl

/-- Witness for C4's amended theorem: a list of two non-definition segments
is ignored wholesale by the definition pass. -/
theorem definitionPass_scans_every_segment_app :
    defineWords [(("2 3").toList), (("4 5").toList)] initCalc = .ok initCalc :=
  definitionPass_scans_every_segment.2.1
    [(("2 3").toList), (("4 5").toList)] initCalc (by decide)

/-- C5: `/` performs flooring integer division: with `operand1` below a
nonzero `operand2`, it pops both and pushes `Int.fdiv operand1 operand2`,
which is the floor of the rational quotient (not truncation); in particular
`evaluate "7 2 /"` returns `[3]`. -/
theorem divide_uses_floor_division :
    (∀ (c : Calc) (a b : Int) (rest : List Int), c.stack = b :: a :: rest →
        b ≠ 0 →
        performOperation ['/'] c = .ok { c with stack := Int.fdiv a b :: rest } ∧
        Int.fdiv a b = ⌊((a : ℤ) : ℚ) / ((b : ℤ) : ℚ)⌋) ∧
    evaluate 10 (("7 2 /").toList) initCalc = .ok [3] := by
  refine ⟨?_, rfl⟩
  intro c a b rest h hb
  refine ⟨?_, fdiv_eq_floor a b⟩
  simp [performOperation, h, arithFn, hb]

/-- Witness for C5: dividing `7` by `2` pushes `Int.fdiv 7 2`, the floor of
`7 / 2`. -/
theorem divide_uses_floor_division_app :
    performOperation ['/'] { stack := [2, 7], words := initWords } =
      .ok { stack := [Int.fdiv 7 2], words := initWords } ∧
    Int.fdiv 7 2 = ⌊((7 : ℤ) : ℚ) / ((2 : ℤ) : ℚ)⌋ := by
  have h := divide_uses_floor_division.1
    { stack := [2, 7], words := initWords } 7 2 [] rfl (by decide)
  exact h

/-- C6: a `/` token reached with at least two stack items and top item `0`
fails with `DivisionByZero`; in particular `evaluate "5 0 /"` fails with
`DivisionByZero` (both operands already popped at the raise). -/
theorem division_by_zero_error :
    (∀ (fuel : Nat) (ws : List Str) (c : Calc) (a : Int) (rest : List Int),
        c.stack = 0 :: a :: rest →
        runToks (fuel + 1) (['/'] :: ws) c =
          .error (.divisionByZero, { c with stack := rest })) ∧
    evaluate 10 (("5 0 /").toList) initCalc =
      .error (.divisionByZero, { stack := [], words := initWords }) := by
  refine ⟨?_, rfl⟩
  intro fuel ws c a rest h
  have hd : isDigits ['/'] = false := rfl
  have ha : isArith ['/'] = true := rfl
  simp [runToks, hd, ha, performOperation, h]

/-- Witness for C6: the `/` token on the stack `[7, 0]` (0 on top) raises
`DivisionByZero` with the two operands gone. -/
theorem division_by_zero_error_app :
    runToks 1 [['/']] { stack := [0, 7], words := initWords } =
      .error (.divisionByZero, { stack := ([] : List Int), words := initWords }) := by
  have h := division_by_zero_error.1 0 [] { stack := [0, 7], words := initWords } 7 [] rfl
  exact h

/-- C7: each operation raises `StackUnderflow` exactly when it needs more
items than the stack holds: `pop` on an empty stack, a binary arithmetic
operation with fewer than 2 items, `swap`/`over` with fewer than 2 items,
`drop`/`dup` with fewer than 1 item — and in no other situation. -/
theorem stackUnderflow_exactly_when_short :
    (∀ s : List Int, stackPop s = .error .stackUnderflow ↔ s = []) ∧
    (∀ (op : Str) (c : Calc),
        (∃ c', performOperation op c = .error (.stackUnderflow, c')) ↔
          c.stack.length < 2) ∧
    (∀ c : Calc,
        (∃ c', stackOpRun .swap c = .error (.stackUnderflow, c')) ↔
          c.stack.length < 2) ∧
    (∀ c : Calc,
        (∃ c', stackOpRun .over c = .error (.stackUnderflow, c')) ↔
          c.stack.length < 2) ∧
    (∀ c : Calc,
        (∃ c', stackOpRun .drop c = .error (.stackUnderflow, c')) ↔
          c.stack.length < 1) ∧
    (∀ c : Calc,
        (∃ c', stackOpRun .dup c = .error (.stackUnderflow, c')) ↔
          c.stack.length < 1) := by
  refine ⟨?_, ?_, ?_, ?_, ?_, ?_⟩
  · intro s
    cases s <;> simp [stackPop]
  · intro op c
    obtain ⟨st, wm⟩ := c
    rcases st with _ | ⟨x, st2⟩
    · simp [performOperation]
    rcases st2 with _ | ⟨y, rest⟩
    · simp [performOperation]
    · simp only [performOperation]
      refine iff_of_false ?_ (by simp)
      rintro ⟨c', hc⟩
      split at hc <;> simp at hc
  · intro c
    obtain ⟨st, wm⟩ := c
    rcases st with _ | ⟨x, _ | ⟨y, rest⟩⟩ <;> simp [stackOpRun]
  · intro c
    obtain ⟨st, wm⟩ := c
    rcases st with _ | ⟨x, _ | ⟨y, rest⟩⟩ <;> simp [stackOpRun]
  · intro c
    obtain ⟨st, wm⟩ := c
    rcases st with _ | ⟨x, st2⟩ <;> simp [stackOpRun, stackPop]
  · intro c
    obtain ⟨st, wm⟩ := c
    rcases st with _ | ⟨x, st2⟩ <;> simp [stackOpRun]

/-- Witness for C7: instantiations on concrete stacks — `pop` underflows
exactly on `[]`, a binary operation underflows on the one-element stack
`[1]`, `swap` underflows on `[1]`, `over` underflows on `[1]`, `drop` and
`dup` underflow on `[]`. -/
theorem stackUnderflow_exactly_when_short_app :
    (stackPop [] = .error .stackUnderflow ↔ ([] : List Int) = []) ∧
    ((∃ c', performOperation ['+'] { stack := [1], words := initWords } =
        .error (.stackUnderflow, c')) ↔ ([(1 : Int)] : List Int).length < 2) ∧
    ((∃ c', stackOpRun .swap { stack := [1], words := initWords } =
        .error (.stackUnderflow, c')) ↔ ([(1 : Int)] : List Int).length < 2) ∧
    ((∃ c', stackOpRun .over { stack := [1], words := initWords } =
        .error (.stackUnderflow, c')) ↔ ([(1 : Int)] : List Int).length < 2) ∧
    ((∃ c', stackOpRun .drop { stack := [], words := initWords } =
        .error (.stackUnderflow, c')) ↔ ([] : List Int).length < 1) ∧
    ((∃ c', stackOpRun .dup { stack := [], words := initWords } =
        .error (.stackUnderflow, c')) ↔ ([] : List Int).length < 1) := by
  obtain ⟨h1, h2, h3, h4, h5, h6⟩ := stackUnderflow_exactly_when_short
  exact ⟨h1 [], h2 ['+'] { stack := [1], words := initWords },
    h3 { stack := [1], words := initWords },
    h4 { stack := [1], words := initWords },
    h5 { stack := [], words := initWords },
    h6 { stack := [], words := initWords }⟩

/-- C8: a token of the executed segment that is not an all-digit literal,
not an arithmetic operator, and not found in the word table (which holds
the built-in stack words and the user-defined words) raises
`UndefinedOperation`; in particular `evaluate "1 foo"` fails with
`UndefinedOperation`. -/
theorem unknown_token_undefined_operation :
    (∀ (fuel : Nat) (ws : List Str) (c : Calc) (w : Str),
        isDigits w = false → isArith w = false →
        lookupWord c.words (lowerStr w) = none →
        runToks (fuel + 1) (w :: ws) c = .error (.undefinedOperation, c)) ∧
    evaluate 10 (("1 foo").toList) initCalc =
      .error (.undefinedOperation, { stack := [1], words := initWords }) := by
  refine ⟨?_, rfl⟩
  intro fuel ws c w hd ha hl
  simp [runToks, hd, ha, hl]

/-- Witness for C8: the unknown token `foo` on a fresh calculator raises
`UndefinedOperation`. -/
theorem unknown_token_undefined_operation_app :
    runToks 1 [(("foo").toList)] initCalc =
      .error (.undefinedOperation, initCalc) :=
  unknown_token_undefined_operation.1 0 [] initCalc (("foo").toList) rfl rfl rfl

/-- C9 counterexample: the word dictionary DOES persist across separate
`evaluate` calls on the same instance. The first call on the input
`": double 2 * ; 5 double"` leaves `double` installed in `other_methods`
(and `[10]` on the stack); a second, separate call `"3 double"` on that
same state then finds `double` and succeeds with `[10, 6]` instead of
failing as an unknown word. -/
theorem word_persists_counterexample :
    runString 10 ((": double 2 * ; 5 double").toList) initCalc =
      .ok { stack := [10],
            words := ((("double").toList), .user (("2 *").toList)) :: initWords } ∧
    evaluate 10 (("3 double").toList)
      { stack := [10],
        words := ((("double").toList), .user (("2 *").toList)) :: initWords } =
      .ok [10, 6] :=
  ⟨rfl, rfl⟩

/-- C9 amended: words defined during one `evaluate` call are stored on the
instance and remain available to later, separate `evaluate` calls on the
same `Calculator` (the operand stack persists as well); only a freshly
constructed `Calculator` does not know them. -/
theorem definitions_persist_across_calls :
    runString 10 ((": double 2 * ; 5 double").toList) initCalc =
      .ok { stack := [10],
            words := ((("double").toList), .user (("2 *").toList)) :: initWords } ∧
    evaluate 10 (("3 double").toList)
      { stack := [10],
        words := ((("double").toList), .user (("2 *").toList)) :: initWords } =
      .ok [10, 6] ∧
    evaluate 10 (("3 double").toList) initCalc =
      .error (.undefinedOperation, { stack := [3], words := initWords }) :=
  ⟨rfl, rfl, rfl⟩

/-- C10: when `/` fails with `DivisionByZero`, both operands have already
been popped: the state carried by the failure has the two top items
removed, so it holds two fewer items than just before the dispatch. -/
theorem divzero_pops_operands_before_raise :
    ∀ (c : Calc) (a : Int) (rest : List Int), c.stack = 0 :: a :: rest →
      performOperation ['/'] c = .error (.divisionByZero, { c with stack := rest }) ∧
      rest.length + 2 = c.stack.length := by
  intro c a rest h
  refine ⟨?_, ?_⟩
  · simp [performOperation, h]
  · simp [h]

/-- Witness for C10: dividing on the stack `[7, 0]` (0 on top) raises with
the empty stack — two items fewer than the two present before. -/
theorem divzero_pops_operands_before_raise_app :
    performOperation ['/'] { stack := [0, 7], words := initWords } =
      .error (.divisionByZero, { stack := ([] : List Int), words := initWords }) ∧
    ([] : List Int).length + 2 = ([0, 7] : List Int).length := by
  have h := divzero_pops_operands_before_raise
    { stack := [0, 7], words := initWords } 7 [] rfl
  exact h

end Forth
